import Mathlib

/-!
Verification development for the static R-tree of `include/util/static_rtree.hpp`
(`osrm::util::StaticRTree`).

The data model and the query / build algorithms are shallowly embedded from the
source header.  Helper geometry that the header includes but that is not part of
this repository snapshot (`rectangle.hpp`, `web_mercator.hpp`,
`coordinate_calculation.hpp`) is modelled from the specification, as marked on
each such definition.  Machine integers are modelled as `Int` / `Nat` (the
squared distances fit `u64` for planet-scale fixed-point inputs, as the spec
notes), and IEEE doubles used for the projected foot point are modelled as
exact rationals; the implicit `double` to `uint64_t` conversion when a segment
candidate is pushed is modelled as `Nat.floor`.
-/

namespace OSRMRTree

/-- Fixed-point coordinate pair, as `util::Coordinate` (lon, lat as `i32`). -/
structure Coordinate where
  lon : Int
  lat : Int
deriving DecidableEq

instance : Inhabited Coordinate := ⟨⟨0, 0⟩⟩

/-- Floating-point coordinate pair, as `util::FloatCoordinate`; the `double`
components are modelled as exact rationals. -/
structure FloatCoordinate where
  lon : ℚ
  lat : ℚ
deriving DecidableEq

/-- Cast of a fixed coordinate to a float coordinate. -/
def toFloatC (c : Coordinate) : FloatCoordinate := ⟨(c.lon : ℚ), (c.lat : ℚ)⟩

/-- Modelled from the spec (web_mercator.hpp is not in src/): rounding a float
coordinate back to fixed point (`Coordinate{FloatCoordinate}`). -/
def toFixedC (q : FloatCoordinate) : Coordinate := ⟨round q.lon, round q.lat⟩

/-- Modelled from the spec (rectangle.hpp is not in src/): `RectangleInt2D`,
four fixed-point bounds.  An empty rectangle carries the sentinel extrema so
that any `Extend` makes it valid. -/
structure RectangleInt2D where
  min_lon : Int
  max_lon : Int
  min_lat : Int
  max_lat : Int
deriving DecidableEq

instance : Inhabited RectangleInt2D := ⟨⟨2147483647, -2147483648, 2147483647, -2147483648⟩⟩

/-- Modelled from the spec: the empty rectangle sentinel (default constructed
`RectangleInt2D`, `i32` extrema). -/
def RectangleInt2D.empty : RectangleInt2D := ⟨2147483647, -2147483648, 2147483647, -2147483648⟩

/-- Modelled from the spec: `Rectangle::Extend(lon, lat)` with a single point. -/
def RectangleInt2D.ExtendPt (r : RectangleInt2D) (lon lat : Int) : RectangleInt2D :=
  ⟨min r.min_lon lon, max r.max_lon lon, min r.min_lat lat, max r.max_lat lat⟩

/-- Modelled from the spec: `MergeBoundingBoxes` / `Extend(rect)`, the
component-wise union of two rectangles. -/
def RectangleInt2D.MergeBoundingBoxes (r o : RectangleInt2D) : RectangleInt2D :=
  ⟨min r.min_lon o.min_lon, max r.max_lon o.max_lon,
   min r.min_lat o.min_lat, max r.max_lat o.max_lat⟩

/-- Modelled from the spec: `Rectangle::Intersects`, the standard axis-aligned
box intersection test. -/
def RectangleInt2D.Intersects (r o : RectangleInt2D) : Bool :=
  decide (max r.min_lon o.min_lon ≤ min r.max_lon o.max_lon) &&
  decide (max r.min_lat o.min_lat ≤ min r.max_lat o.max_lat)

/-- Modelled from the spec: `GetMinSquaredDist(point)` is 0 when the point lies
inside the rectangle, and otherwise the squared fixed-point distance to the
nearest edge or corner.  `dx` and `dy` are the per-axis gaps. -/
def RectangleInt2D.GetMinSquaredDist (r : RectangleInt2D) (p : Coordinate) : Nat :=
  let dx : Int := max 0 (max (r.min_lon - p.lon) (p.lon - r.max_lon))
  let dy : Int := max 0 (max (r.min_lat - p.lat) (p.lat - r.max_lat))
  (dx * dx + dy * dy).toNat

/-- Fixed-point containment of a point in a rectangle. -/
def containsPt (r : RectangleInt2D) (p : Coordinate) : Prop :=
  r.min_lon ≤ p.lon ∧ p.lon ≤ r.max_lon ∧ r.min_lat ≤ p.lat ∧ p.lat ≤ r.max_lat

instance (r : RectangleInt2D) (p : Coordinate) : Decidable (containsPt r p) := by
  unfold containsPt; infer_instance

/-- Rational containment of a (projected, unrounded) point in a rectangle. -/
def containsQ (r : RectangleInt2D) (x y : ℚ) : Prop :=
  (r.min_lon : ℚ) ≤ x ∧ x ≤ (r.max_lon : ℚ) ∧ (r.min_lat : ℚ) ≤ y ∧ y ≤ (r.max_lat : ℚ)

/-- `a` is bounds-contained in `b` (empty-rectangle sentinels included). -/
def rectSubset (a b : RectangleInt2D) : Prop :=
  b.min_lon ≤ a.min_lon ∧ a.max_lon ≤ b.max_lon ∧ b.min_lat ≤ a.min_lat ∧ a.max_lat ≤ b.max_lat

instance (a b : RectangleInt2D) : Decidable (rectSubset a b) := by
  unfold rectSubset; infer_instance

/-- Modelled from the spec (web_mercator.hpp is not in src/): the spherical
Mercator projection keeps the longitude and maps the latitude through `latToY`;
the projection of fixed-point to fixed-point is parameterised by the
(monotone) fixed-point latitude map. -/
def fromWGS84 (latToY : Int → Int) (c : Coordinate) : Coordinate :=
  ⟨c.lon, latToY c.lat⟩

/-- Modelled from the spec (coordinate_calculation.hpp is not in src/):
`squaredEuclideanDistance` between a fixed point and a float point, in
fixed-point units squared. -/
def squaredEuclideanDistance (p : Coordinate) (q : FloatCoordinate) : ℚ :=
  ((p.lon : ℚ) - q.lon) ^ 2 + ((p.lat : ℚ) - q.lat) ^ 2

/-- The ratio clamping of `projectPointOnSegment`: into `[0, 1]`. -/
def clampRatio (x : ℚ) : ℚ := if x > 1 then 1 else if x < 0 then 0 else x

/-- The clamped, normed projection ratio of `coordinate` on the segment from
`source` to `target`. -/
def projectRatio (source target coordinate : FloatCoordinate) : ℚ :=
  clampRatio
    (((target.lon - source.lon) * (coordinate.lon - source.lon) +
      (target.lat - source.lat) * (coordinate.lat - source.lat)) /
     ((target.lon - source.lon) * (target.lon - source.lon) +
      (target.lat - source.lat) * (target.lat - source.lat)))

/-- Modelled from the spec (coordinate_calculation.hpp is not in src/):
`projectPointOnSegment(source, target, coordinate)` returns the clamped ratio
and the foot of perpendicular of the point on the segment, with the degenerate
`source == target` segment mapping to `source`. -/
def projectPointOnSegment (source target coordinate : FloatCoordinate) :
    ℚ × FloatCoordinate :=
  if (target.lon - source.lon) * (target.lon - source.lon) +
     (target.lat - source.lat) * (target.lat - source.lat) = 0 then (0, source)
  else
    (projectRatio source target coordinate,
     ⟨source.lon + projectRatio source target coordinate * (target.lon - source.lon),
      source.lat + projectRatio source target coordinate * (target.lat - source.lat)⟩)

/-- Modelled from the spec (coordinate_calculation.hpp is not in src/):
`centroid` of two fixed coordinates, component-wise integer average. -/
def centroid (lhs rhs : Coordinate) : Coordinate :=
  ⟨(lhs.lon + rhs.lon) / 2, (lhs.lat + rhs.lat) / 2⟩

/-- Segment id with enabled flag, the shape of `forward_segment_id` /
`reverse_segment_id` in the `EdgeDataT` payload used by `Nearest`. -/
structure SegmentID where
  id : Nat
  enabled : Bool
deriving DecidableEq

/-- The edge payload: two indices `u`, `v` into the coordinate table plus the
two segment ids whose enabled bits `Nearest` masks. -/
structure EdgeDataT where
  u : Nat
  v : Nat
  forward_segment_id : SegmentID
  reverse_segment_id : SegmentID
deriving DecidableEq

instance : Inhabited EdgeDataT := ⟨⟨0, 0, ⟨0, false⟩, ⟨0, false⟩⟩⟩

/-- `StaticRTree::TreeIndex`: a store index plus the leaf/node discriminator
(31-bit index and 1-bit flag in the source). -/
structure TreeIndex where
  index : Nat
  is_leaf : Bool
deriving DecidableEq

instance : Inhabited TreeIndex := ⟨⟨0, false⟩⟩

/-- `StaticRTree::TreeNode`.  The fixed `children[BRANCHING_FACTOR]` array is
modelled as a list; `child_count` counts the valid prefix. -/
structure TreeNode where
  child_count : Nat
  minimum_bounding_rectangle : RectangleInt2D
  children : List TreeIndex
deriving DecidableEq

instance : Inhabited TreeNode := ⟨⟨0, RectangleInt2D.empty, []⟩⟩

/-- `StaticRTree::LeafNode`.  The fixed `objects[LEAF_NODE_SIZE]` array is
modelled as a list; `object_count` counts the valid prefix. -/
structure LeafNode where
  object_count : Nat
  minimum_bounding_rectangle : RectangleInt2D
  objects : List EdgeDataT
deriving DecidableEq

instance : Inhabited LeafNode := ⟨⟨0, RectangleInt2D.empty, []⟩⟩

/-- The loaded index: node array (root at 0), mapped leaf pages, and the
borrowed coordinate table. -/
structure StaticRTree where
  m_search_tree : List TreeNode
  m_leaves : List LeafNode
  m_coordinate_list : List Coordinate
deriving DecidableEq

/-- `std::numeric_limits<std::uint32_t>::max()`, the sentinel stored in
`segment_index` by the tree-node constructor of `QueryCandidate`. -/
def SEGMENT_SENTINEL : Nat := 4294967295

/-- `StaticRTree::QueryCandidate`: a priority-queue entry. -/
structure QueryCandidate where
  squared_min_dist : Nat
  tree_index : TreeIndex
  segment_index : Nat
  fixed_projected_coordinate : Coordinate
deriving DecidableEq

/-- `QueryCandidate::is_segment()`. -/
def QueryCandidate.is_segment (c : QueryCandidate) : Bool :=
  decide (c.segment_index ≠ SEGMENT_SENTINEL)

/-- The two-argument `QueryCandidate` constructor (tree-node entry): the
segment index is the sentinel and the projected coordinate is left default. -/
def mkNodeCandidate (squared_min_dist : Nat) (tree_index : TreeIndex) : QueryCandidate :=
  ⟨squared_min_dist, tree_index, SEGMENT_SENTINEL, ⟨0, 0⟩⟩

/-- `StaticRTree::CandidateSegment`, the argument of filter and terminator. -/
structure CandidateSegment where
  fixed_projected_coordinate : Coordinate
  data : EdgeDataT
deriving DecidableEq

/-- One pop of `std::priority_queue<QueryCandidate>`: `QueryCandidate`
compares reversed, so the top is an entry of minimal `squared_min_dist`.
Returns that entry and the remaining queue (first minimal entry on ties; the
claims only use minimality). -/
def popMinAux (c : QueryCandidate) : List QueryCandidate → QueryCandidate × List QueryCandidate
  | [] => (c, [])
  | d :: ds =>
    let p := popMinAux d ds
    if p.1.squared_min_dist < c.squared_min_dist then (p.1, c :: p.2) else (c, d :: ds)

/-- The rectangle a `TreeIndex` refers to: the leaf mbr or the tree-node mbr,
as read by `ExploreTreeNode` and `SearchInBox`. -/
def childRectangle (t : StaticRTree) (child_id : TreeIndex) : RectangleInt2D :=
  if child_id.is_leaf then
    (t.m_leaves.getD child_id.index default).minimum_bounding_rectangle
  else
    (t.m_search_tree.getD child_id.index default).minimum_bounding_rectangle

/-- `StaticRTree::ExploreLeafNode`: push one segment candidate per stored
object, keyed by the floor of the squared distance from the fixed projected
query point to the clamped foot of perpendicular on the projected segment. -/
def ExploreLeafNode (t : StaticRTree) (latToY : Int → Int) (leaf_id : TreeIndex)
    (projected_input_coordinate_fixed : Coordinate) : List QueryCandidate :=
  let current_leaf_node := t.m_leaves.getD leaf_id.index default
  (List.range current_leaf_node.object_count).map (fun i =>
    let current_edge := current_leaf_node.objects.getD i default
    let projected_u :=
      toFloatC (fromWGS84 latToY (t.m_coordinate_list.getD current_edge.u default))
    let projected_v :=
      toFloatC (fromWGS84 latToY (t.m_coordinate_list.getD current_edge.v default))
    let projected_nearest :=
      (projectPointOnSegment projected_u projected_v
        (toFloatC projected_input_coordinate_fixed)).2
    let squared_distance :=
      squaredEuclideanDistance projected_input_coordinate_fixed projected_nearest
    ⟨⌊squared_distance⌋₊, leaf_id, i, toFixedC projected_nearest⟩)

/-- `StaticRTree::ExploreTreeNode`: push one tree-node candidate per child,
keyed by the minimal squared distance of the child rectangle to the query. -/
def ExploreTreeNode (t : StaticRTree) (parent_id : TreeIndex)
    (fixed_projected_input_coordinate : Coordinate) : List QueryCandidate :=
  let parent := t.m_search_tree.getD parent_id.index default
  (List.range parent.child_count).map (fun i =>
    let child_id := parent.children.getD i default
    mkNodeCandidate
      ((childRectangle t child_id).GetMinSquaredDist fixed_projected_input_coordinate)
      child_id)

/-- The edge object a segment candidate denotes
(`m_leaves[...].objects[segment_index]`). -/
def segmentEdge (t : StaticRTree) (cur : QueryCandidate) : EdgeDataT :=
  (t.m_leaves.getD cur.tree_index.index default).objects.getD cur.segment_index default

/-- The `CandidateSegment` built for a popped segment candidate. -/
def segmentCandidate (t : StaticRTree) (cur : QueryCandidate) : CandidateSegment :=
  ⟨cur.fixed_projected_coordinate, segmentEdge t cur⟩

/-- Masking of the enabled bits of a local edge copy:
`edge_data.forward_segment_id.enabled &= use_segment.first` and likewise for
the reverse flag. -/
def maskEdge (e : EdgeDataT) (use_segment : Bool × Bool) : EdgeDataT :=
  { e with
    forward_segment_id :=
      { e.forward_segment_id with enabled := e.forward_segment_id.enabled && use_segment.1 }
    reverse_segment_id :=
      { e.reverse_segment_id with enabled := e.reverse_segment_id.enabled && use_segment.2 } }

/-- The main loop of `StaticRTree::Nearest`, with explicit fuel for the
unbounded `while`.  The accumulated results keep the squared distance of the
candidate that produced each edge alongside the edge (the source pushes only
the edge; the pair records the key of the popped candidate for the ordering
statements). -/
def nearestLoop (t : StaticRTree) (latToY : Int → Int)
    (filter : CandidateSegment → Bool × Bool)
    (terminate : Nat → CandidateSegment → Bool)
    (pf : Coordinate) :
    Nat → List QueryCandidate → List (Nat × EdgeDataT) → List (Nat × EdgeDataT)
  | 0, _, results => results
  | _ + 1, [], results => results
  | fuel + 1, c :: cs, results =>
    if (popMinAux c cs).1.is_segment then
      if terminate results.length (segmentCandidate t (popMinAux c cs).1) then results
      else
        if (filter (segmentCandidate t (popMinAux c cs).1)).1 = false ∧
           (filter (segmentCandidate t (popMinAux c cs).1)).2 = false then
          nearestLoop t latToY filter terminate pf fuel (popMinAux c cs).2 results
        else
          nearestLoop t latToY filter terminate pf fuel (popMinAux c cs).2
            (results ++ [((popMinAux c cs).1.squared_min_dist,
              maskEdge (segmentEdge t (popMinAux c cs).1)
                (filter (segmentCandidate t (popMinAux c cs).1)))])
    else
      if (popMinAux c cs).1.tree_index.is_leaf then
        nearestLoop t latToY filter terminate pf fuel
          (ExploreLeafNode t latToY (popMinAux c cs).1.tree_index pf ++ (popMinAux c cs).2) results
      else
        nearestLoop t latToY filter terminate pf fuel
          (ExploreTreeNode t (popMinAux c cs).1.tree_index pf ++ (popMinAux c cs).2) results

/-- `StaticRTree::Nearest(input, filter, terminate)` instrumented with the
candidate distances: the queue is seeded with the root at lower bound 0. -/
def NearestWithDist (t : StaticRTree) (latToY : Int → Int)
    (filter : CandidateSegment → Bool × Bool)
    (terminate : Nat → CandidateSegment → Bool)
    (input_coordinate : Coordinate) (fuel : Nat) : List (Nat × EdgeDataT) :=
  nearestLoop t latToY filter terminate (fromWGS84 latToY input_coordinate) fuel
    [mkNodeCandidate 0 ⟨0, false⟩] []

/-- `StaticRTree::Nearest(input, filter, terminate)`: the result vector of
edges. -/
def Nearest (t : StaticRTree) (latToY : Int → Int)
    (filter : CandidateSegment → Bool × Bool)
    (terminate : Nat → CandidateSegment → Bool)
    (input_coordinate : Coordinate) (fuel : Nat) : List EdgeDataT :=
  (NearestWithDist t latToY filter terminate input_coordinate fuel).map Prod.snd

/-- The convenience wrapper `Nearest(input_coordinate, max_results)`: filter
accepts everything, terminator fires once `max_results` results are present. -/
def NearestMax (t : StaticRTree) (latToY : Int → Int) (input_coordinate : Coordinate)
    (max_results : Nat) (fuel : Nat) : List EdgeDataT :=
  Nearest t latToY (fun _ => (true, true))
    (fun num_results _ => decide (num_results ≥ max_results)) input_coordinate fuel

/-- The geographic bounding box of an edge, recomputed from the coordinate
table exactly as in the leaf scan of `SearchInBox`. -/
def edgeGeoBBox (t : StaticRTree) (e : EdgeDataT) : RectangleInt2D :=
  let cu := t.m_coordinate_list.getD e.u default
  let cv := t.m_coordinate_list.getD e.v default
  ⟨min cu.lon cv.lon, max cu.lon cv.lon, min cu.lat cv.lat, max cu.lat cv.lat⟩

/-- The projected query rectangle built at the top of `SearchInBox`: the
longitudes pass through, the latitudes are mapped by `latToY`. -/
def projectRectangle (latToY : Int → Int) (r : RectangleInt2D) : RectangleInt2D :=
  ⟨r.min_lon, r.max_lon, latToY r.min_lat, latToY r.max_lat⟩

/-- The BFS loop of `StaticRTree::SearchInBox`, with explicit fuel: `none`
means the fuel ran out before the traversal queue drained. -/
def searchInBoxLoop (t : StaticRTree)
    (search_rectangle projected_rectangle : RectangleInt2D) :
    Nat → List TreeIndex → List EdgeDataT → Option (List EdgeDataT)
  | 0, [], results => some results
  | 0, _ :: _, _ => none
  | _ + 1, [], results => some results
  | fuel + 1, current_tree_index :: rest, results =>
    if current_tree_index.is_leaf then
      let current_leaf_node := t.m_leaves.getD current_tree_index.index default
      searchInBoxLoop t search_rectangle projected_rectangle fuel rest
        (results ++ (List.range current_leaf_node.object_count).filterMap (fun i =>
          let current_edge := current_leaf_node.objects.getD i default
          if (edgeGeoBBox t current_edge).Intersects search_rectangle then some current_edge
          else none))
    else
      let current_tree_node := t.m_search_tree.getD current_tree_index.index default
      searchInBoxLoop t search_rectangle projected_rectangle fuel
        (rest ++ (List.range current_tree_node.child_count).filterMap (fun i =>
          let child_id := current_tree_node.children.getD i default
          if (childRectangle t child_id).Intersects projected_rectangle then some child_id
          else none))
        results

/-- `StaticRTree::SearchInBox`: the input rectangle is geographic; the node
pruning uses its latitude projection, the per-edge test the unprojected box. -/
def SearchInBox (t : StaticRTree) (latToY : Int → Int)
    (search_rectangle : RectangleInt2D) (fuel : Nat) : Option (List EdgeDataT) :=
  searchInBoxLoop t search_rectangle (projectRectangle latToY search_rectangle) fuel
    [(⟨0, false⟩ : TreeIndex)] []

/-- Reachability of a tree index from another by repeatedly stepping into a
child of a non-leaf node; `ReachFrom t a b` means the traversal starting at
`a` can reach `b`. -/
inductive ReachFrom (t : StaticRTree) : TreeIndex → TreeIndex → Prop
  | refl (a : TreeIndex) : ReachFrom t a a
  | step (a c : TreeIndex) (i : Nat) :
      a.is_leaf = false →
      i < (t.m_search_tree.getD a.index default).child_count →
      ReachFrom t ((t.m_search_tree.getD a.index default).children.getD i default) c →
      ReachFrom t a c

/-- An index reachable from the root `TreeIndex{}` (index 0, non-leaf). -/
def Reaches (t : StaticRTree) (ti : TreeIndex) : Prop :=
  ReachFrom t ⟨0, false⟩ ti

/-- Well-formedness of a loaded index, exactly the build invariants the spec
states: every child rectangle is contained in the mbr of its parent node,
every stored edge has its projected endpoints inside the mbr of its leaf, and
every object count is below the `segment_index` sentinel. -/
def WellFormedTree (t : StaticRTree) (latToY : Int → Int) : Prop :=
  (∀ n ∈ t.m_search_tree, ∀ i < n.child_count,
      rectSubset (childRectangle t (n.children.getD i default))
        n.minimum_bounding_rectangle) ∧
  (∀ lf ∈ t.m_leaves, ∀ i < lf.object_count,
      containsPt lf.minimum_bounding_rectangle
        (fromWGS84 latToY (t.m_coordinate_list.getD (lf.objects.getD i default).u default)) ∧
      containsPt lf.minimum_bounding_rectangle
        (fromWGS84 latToY (t.m_coordinate_list.getD (lf.objects.getD i default).v default))) ∧
  (∀ lf ∈ t.m_leaves, lf.object_count < SEGMENT_SENTINEL)

instance (t : StaticRTree) (latToY : Int → Int) : Decidable (WellFormedTree t latToY) := by
  unfold WellFormedTree
  infer_instance

/-!  Explicit-state renderings of the two query loops.  Every memory access of
the source loop is threaded through the index state `t`; the final state is
returned next to the result so that the frame property (queries never write
the node array, the leaf pages or the coordinate table) is visible in the
type.  The flag masking acts on the local copy `segmentEdge t cur` only, as in
the source (`auto edge_data = m_leaves[...].objects[...]`). -/

/-- State-threaded rendering of the `Nearest` loop. -/
def nearestLoopSt (t : StaticRTree) (latToY : Int → Int)
    (filter : CandidateSegment → Bool × Bool)
    (terminate : Nat → CandidateSegment → Bool)
    (pf : Coordinate) :
    Nat → List QueryCandidate → List (Nat × EdgeDataT) →
      StaticRTree × List (Nat × EdgeDataT)
  | 0, _, results => (t, results)
  | _ + 1, [], results => (t, results)
  | fuel + 1, c :: cs, results =>
    if (popMinAux c cs).1.is_segment then
      if terminate results.length (segmentCandidate t (popMinAux c cs).1) then (t, results)
      else
        if (filter (segmentCandidate t (popMinAux c cs).1)).1 = false ∧
           (filter (segmentCandidate t (popMinAux c cs).1)).2 = false then
          nearestLoopSt t latToY filter terminate pf fuel (popMinAux c cs).2 results
        else
          nearestLoopSt t latToY filter terminate pf fuel (popMinAux c cs).2
            (results ++ [((popMinAux c cs).1.squared_min_dist,
              maskEdge (segmentEdge t (popMinAux c cs).1)
                (filter (segmentCandidate t (popMinAux c cs).1)))])
    else
      if (popMinAux c cs).1.tree_index.is_leaf then
        nearestLoopSt t latToY filter terminate pf fuel
          (ExploreLeafNode t latToY (popMinAux c cs).1.tree_index pf ++ (popMinAux c cs).2) results
      else
        nearestLoopSt t latToY filter terminate pf fuel
          (ExploreTreeNode t (popMinAux c cs).1.tree_index pf ++ (popMinAux c cs).2) results

/-- State-threaded rendering of the `SearchInBox` loop. -/
def searchInBoxLoopSt (t : StaticRTree)
    (search_rectangle projected_rectangle : RectangleInt2D) :
    Nat → List TreeIndex → List EdgeDataT →
      StaticRTree × Option (List EdgeDataT)
  | 0, [], results => (t, some results)
  | 0, _ :: _, _ => (t, none)
  | _ + 1, [], results => (t, some results)
  | fuel + 1, current_tree_index :: rest, results =>
    if current_tree_index.is_leaf then
      searchInBoxLoopSt t search_rectangle projected_rectangle fuel rest
        (results ++ (List.range (t.m_leaves.getD current_tree_index.index default).object_count).filterMap (fun i =>
          let current_edge := (t.m_leaves.getD current_tree_index.index default).objects.getD i default
          if (edgeGeoBBox t current_edge).Intersects search_rectangle then some current_edge
          else none))
    else
      searchInBoxLoopSt t search_rectangle projected_rectangle fuel
        (rest ++ (List.range (t.m_search_tree.getD current_tree_index.index default).child_count).filterMap (fun i =>
          let child_id := (t.m_search_tree.getD current_tree_index.index default).children.getD i default
          if (childRectangle t child_id).Intersects projected_rectangle then some child_id
          else none))
        results

/-!  Loading: `MapLeafNodesFile`. -/

/-- `StaticRTree::MapLeafNodesFile`: the mmap either throws (`none`, re-thrown
as `util::exception`, so opening fails) or yields a byte count, and the number
of leaves is the integer quotient `size / sizeof(LeafNode)`; no divisibility
check is performed, trailing bytes are ignored.  The alignment `BOOST_ASSERT`
is a debug no-op. -/
def MapLeafNodesFile (leafPageSize : Nat) (mmapBytes : Option Nat) : Option Nat :=
  match mmapBytes with
  | none => none
  | some size => some (size / leafPageSize)

/-- `StaticRTree::LEAF_NODE_SIZE` as a function of the page size and
`sizeof(EdgeDataT)`: `(LEAF_PAGE_SIZE - sizeof(uint32_t) - sizeof(Rectangle)) /
sizeof(EdgeDataT)` with `sizeof(uint32_t) = 4` and `sizeof(Rectangle) = 16`. -/
def LEAF_NODE_SIZE (LEAF_PAGE_SIZE sizeofEdgeData : Nat) : Nat :=
  (LEAF_PAGE_SIZE - 4 - 16) / sizeofEdgeData

/-!  The OMT bulk packer (`StaticRTree::PackWithOMT`).  The breadth-first
queue of ranges, the per-range sorts, the leaf emission with
`object_count = N - 1` (where `N = right - left + 1`), the parent updates, and
the reverse mbr propagation post-pass are translated statement by statement;
`std::ceil` over `log`, `pow` and `sqrt` of small integers is modelled by the
exact integer ceilings, and the `std::sort` calls by a stable insertion sort
(the counterexample inputs below have pairwise distinct sort keys, so any
conforming `std::sort` produces the same array).  Writes through an
out-of-range parent index (the C++ indexes `m_search_tree[r.parent]` even when
the node vector is empty) are modelled as no-ops.  The fixed
`TreeIndex children[BRANCHING_FACTOR]` array of a node is modelled as an
unbounded list: the model is faithful to the source statement by statement
only while every `child_count` stays at most `BRANCHING_FACTOR`; a
`child_count` exceeding the branching factor in the model marks the exact
attach at which the source writes `children[BRANCHING_FACTOR]`, one past the
end of the fixed array. -/

/-- A queue entry of the OMT build: parent slot, range bounds and height. -/
structure OMTRange where
  parent : Nat
  left : Nat
  right : Nat
  height : Nat
deriving DecidableEq

/-- Bounded search for the least `h` with `N ≤ B ^ h`. -/
def ceilLogAux (B N : Nat) : Nat → Nat → Nat
  | 0, h => h
  | fuel + 1, h => if N ≤ B ^ h then h else ceilLogAux B N fuel (h + 1)

/-- Exact `ceil(log N / log B)` for naturals (`B ≥ 2`): the least `h` with
`B ^ h ≥ N`. -/
def ceilLog (B N : Nat) : Nat := ceilLogAux B N N 0

/-- Exact `ceil(a / b)` for naturals. -/
def ceilDiv (a b : Nat) : Nat := (a + b - 1) / b

/-- Bounded search for the least `s` with `m ≤ s * s`. -/
def ceilSqrtAux (m : Nat) : Nat → Nat → Nat
  | 0, s => s
  | fuel + 1, s => if m ≤ s * s then s else ceilSqrtAux m fuel (s + 1)

/-- Exact `ceil(sqrt m)` for naturals: the least `s` with `s * s ≥ m`. -/
def ceilSqrt (m : Nat) : Nat := ceilSqrtAux m m 0

/-- The `longitude_compare` lambda: strict `<` on centroid longitudes. -/
def lonLess (coords : List Coordinate) (a b : EdgeDataT) : Bool :=
  decide ((centroid (coords.getD a.u default) (coords.getD a.v default)).lon <
          (centroid (coords.getD b.u default) (coords.getD b.v default)).lon)

/-- The `latitude_compare` lambda: strict `<` on centroid latitudes. -/
def latLess (coords : List Coordinate) (a b : EdgeDataT) : Bool :=
  decide ((centroid (coords.getD a.u default) (coords.getD a.v default)).lat <
          (centroid (coords.getD b.u default) (coords.getD b.v default)).lat)

/-- Insertion into a sorted prefix, placing equal keys after existing ones. -/
def insertSorted (lt : EdgeDataT → EdgeDataT → Bool) (x : EdgeDataT) :
    List EdgeDataT → List EdgeDataT
  | [] => [x]
  | y :: ys => if lt x y then x :: y :: ys else y :: insertSorted lt x ys

/-- Stable comparison sort standing in for `std::sort` (identical output for
pairwise distinct keys). -/
def stableSortBy (lt : EdgeDataT → EdgeDataT → Bool) (l : List EdgeDataT) : List EdgeDataT :=
  l.foldl (fun acc x => insertSorted lt x acc) []

/-- Sorting of the sub-range `[l, r)` of the edge array in place. -/
def sortSegment (lt : EdgeDataT → EdgeDataT → Bool) (xs : List EdgeDataT) (l r : Nat) :
    List EdgeDataT :=
  xs.take l ++ stableSortBy lt ((xs.drop l).take (r - l)) ++ xs.drop r

/-- The leaf emitted for a dequeued range: `object_count = N - 1` with
`N = right - left + 1`, the objects copied from `[left, right)` and the mbr
extended over the projected endpoints of the first `object_count` objects. -/
def omtLeafNode (coords : List Coordinate) (latToY : Int → Int)
    (leaves : List EdgeDataT) (left right : Nat) : LeafNode :=
  let N := right - left + 1
  let objs := (leaves.drop left).take (right - left)
  let object_count := N - 1
  let mbr := (objs.take object_count).foldl (fun rect e =>
      let projected_u := fromWGS84 latToY (coords.getD e.u default)
      let projected_v := fromWGS84 latToY (coords.getD e.v default)
      (rect.ExtendPt projected_u.lon projected_u.lat).ExtendPt projected_v.lon projected_v.lat)
    RectangleInt2D.empty
  ⟨object_count, mbr, objs⟩

/-- Attaching a leaf child to `m_search_tree[parent]`: record the child index
with the leaf flag, extend the parent mbr by the leaf mbr, bump the count.
The source writes `children[child_count]` into the fixed
`children[BRANCHING_FACTOR]` array (its guarding `BOOST_ASSERT` checks
`child_count <= BRANCHING_FACTOR` before the write, so a count equal to the
branching factor slips through to an out-of-bounds write); the model appends
to the unbounded list and is faithful only while `child_count` stays below
the branching factor at every attach. -/
def attachLeaf (st : List TreeNode) (parent leaf_index : Nat)
    (leafMbr : RectangleInt2D) : List TreeNode :=
  match st.get? parent with
  | none => st
  | some n =>
    st.set parent
      ⟨n.child_count + 1, n.minimum_bounding_rectangle.MergeBoundingBoxes leafMbr,
       n.children ++ [⟨leaf_index, true⟩]⟩

/-- Attaching an internal child to `m_search_tree[parent]` (no mbr update in
the main loop; the post-pass is supposed to do it).  As with `attachLeaf`,
the source writes `children[child_count]` into the fixed array (here the
`BOOST_ASSERT` checks the strict `child_count < BRANCHING_FACTOR`, the
intended bound); the unbounded-list model is faithful only while that bound
holds at every attach. -/
def attachNode (st : List TreeNode) (parent node_index : Nat) : List TreeNode :=
  match st.get? parent with
  | none => st
  | some n =>
    st.set parent
      ⟨n.child_count + 1, n.minimum_bounding_rectangle,
       n.children ++ [⟨node_index, false⟩]⟩

/-- The inner loop `for (j = i; j <= right2; j += N2)`: enqueue the group
`(j, min(j + N2 - 1, right2))`. -/
def omtInnerGroups (parent height N2 right2 : Nat) :
    Nat → Nat → List OMTRange
  | 0, _ => []
  | fuel + 1, j =>
    if j ≤ right2 then
      ⟨parent, j, min (j + N2 - 1) right2, height⟩ ::
        omtInnerGroups parent height N2 right2 fuel (j + N2)
    else []

/-- The outer slab loop `for (i = left; i < right; i += N1)`: take
`right2 = min(i + N1 - 1, right)`, sort `[i, right2)` by centroid latitude,
and enqueue the latitude groups. -/
def omtSlabs (coords : List Coordinate) (height parent N1 N2 right : Nat) :
    Nat → Nat → List EdgeDataT → List EdgeDataT × List OMTRange
  | 0, _, leaves => (leaves, [])
  | fuel + 1, i, leaves =>
    if i < right then
      let right2 := min (i + N1 - 1) right
      let leaves1 := sortSegment (latLess coords) leaves i right2
      let groups := omtInnerGroups parent height N2 right2 (right2 + 1) i
      let rec1 := omtSlabs coords height parent N1 N2 right fuel (i + N1) leaves1
      (rec1.1, groups ++ rec1.2)
    else (leaves, [])

/-- The mutable build state of the OMT main loop. -/
structure OMTBuild where
  search_tree : List TreeNode
  leaf_file : List LeafNode
  leaf_node_count : Nat
  leaves : List EdgeDataT
  queue : List OMTRange

/-- The OMT main loop: dequeue a range; if `N = right - left + 1` fits the
branching factor emit a leaf, otherwise create a tree node, derive the
height and fan-out (at the root from `ceil(log N / log B)` and
`ceil(N / B^(height-1))`, below the root `M = B` with a parent attach), take
`N2 = N / M` (an integer division in the source, despite the `std::ceil`) and
`N1 = N2 * ceil(sqrt M)`, sort the range by centroid longitude and enqueue the
slab groups. -/
def omtLoop (coords : List Coordinate) (latToY : Int → Int) (B : Nat) :
    Nat → OMTBuild → OMTBuild
  | 0, s => s
  | fuel + 1, s =>
    match s.queue with
    | [] => s
    | r :: qrest =>
      let N := r.right - r.left + 1
      if N ≤ B then
        let current_leaf := omtLeafNode coords latToY s.leaves r.left r.right
        omtLoop coords latToY B fuel
          ⟨attachLeaf s.search_tree r.parent s.leaf_node_count
             current_leaf.minimum_bounding_rectangle,
           s.leaf_file ++ [current_leaf], s.leaf_node_count + 1, s.leaves, qrest⟩
      else
        let st1 := s.search_tree ++ [default]
        let node_index := st1.length - 1
        let height := if r.height = 0 then ceilLog B N else r.height
        let M := if r.height = 0 then ceilDiv N (B ^ (height - 1)) else B
        let st2 := if r.height = 0 then st1 else attachNode st1 r.parent node_index
        let N2 := N / M
        let N1 := N2 * ceilSqrt M
        let leaves1 := sortSegment (lonLess coords) s.leaves r.left r.right
        let slabs := omtSlabs coords (height - 1) node_index N1 N2 r.right (r.right + 1) r.left leaves1
        omtLoop coords latToY B fuel
          ⟨st2, s.leaf_file, s.leaf_node_count, slabs.1, qrest ++ slabs.2⟩

/-- The reverse mbr propagation post-pass: iterate the node vector from the
back; skip nodes with no children or with a leaf first child; otherwise extend
the mbr by `m_search_tree[children[i].index]` for every child, reading the
node vector regardless of the leaf flag of the child, exactly as the source
does. -/
def omtPostPass (st : List TreeNode) : List TreeNode :=
  (List.range st.length).reverse.foldl (fun cur idx =>
    let n := cur.getD idx default
    if n.child_count = 0 || (n.children.getD 0 default).is_leaf then cur
    else
      let newRect :=
        (List.range n.child_count).foldl
          (fun acc i =>
            acc.MergeBoundingBoxes
              ((cur.getD (n.children.getD i default).index default).minimum_bounding_rectangle))
          n.minimum_bounding_rectangle
      cur.set idx ⟨n.child_count, newRect, n.children⟩) st

/-- The output of a build: the node array and the leaf file. -/
structure RTreeBuild where
  search_tree : List TreeNode
  leaf_file : List LeafNode
deriving DecidableEq

/-- `StaticRTree::PackWithOMT`: run the queue from the initial range
`(parent 0, [0, size), height 0)` and propagate the mbrs. -/
def PackWithOMT (coords : List Coordinate) (latToY : Int → Int) (B : Nat)
    (input : List EdgeDataT) (fuel : Nat) : RTreeBuild :=
  let s := omtLoop coords latToY B fuel ⟨[], [], 0, input, [⟨0, 0, input.length, 0⟩]⟩
  ⟨omtPostPass s.search_tree, s.leaf_file⟩

/-- The multiset of edges stored in the leaf file (first `object_count`
entries of every leaf). -/
def storedEdges (b : RTreeBuild) : List EdgeDataT :=
  (b.leaf_file.map (fun lf => lf.objects.take lf.object_count)).flatten

/-- The edge list used by the counterexamples: edge `i` joins coordinates
`2*i` and `2*i + 1`. -/
def diagEdges (n : Nat) : List EdgeDataT :=
  (List.range n).map (fun i => ⟨2 * i, 2 * i + 1, ⟨0, true⟩, ⟨0, true⟩⟩)

/-- The coordinate table used by the counterexamples: coordinate `j` is
`(j, j)`, so centroids are pairwise distinct on both axes. -/
def diagCoords (n : Nat) : List Coordinate :=
  (List.range n).map (fun j => ⟨(j : Int), (j : Int)⟩)

/-!  Auxiliary predicates for the ordering proof, and concrete fixtures used
by the witnesses. -/

/-- The queue soundness predicate: a non-segment entry is keyed by at most the
minimal squared distance of the rectangle it refers to. -/
def keyIsLB (t : StaticRTree) (pf : Coordinate) (c : QueryCandidate) : Prop :=
  c.is_segment = false →
    c.squared_min_dist ≤ (childRectangle t c.tree_index).GetMinSquaredDist pf

/-- The ordering relation on instrumented results: non-decreasing recorded
squared distance. -/
def resultLE (a b : Nat × EdgeDataT) : Prop := a.1 ≤ b.1

/-- Fixture edge 0 for the witnesses: endpoints 0 and 1 of `wCoords`. -/
def wEdge0 : EdgeDataT := ⟨0, 1, ⟨10, true⟩, ⟨11, true⟩⟩

/-- Fixture edge 1 for the witnesses: endpoints 2 and 3 of `wCoords`. -/
def wEdge1 : EdgeDataT := ⟨2, 3, ⟨12, true⟩, ⟨13, false⟩⟩

/-- Fixture coordinate table for the witnesses. -/
def wCoords : List Coordinate := [⟨0, 0⟩, ⟨10, 0⟩, ⟨0, 5⟩, ⟨10, 5⟩]

/-- Fixture leaf holding the two fixture edges, mbr equal to the union of
their projected endpoint boxes (with the identity latitude map). -/
def wLeaf : LeafNode := ⟨2, ⟨0, 10, 0, 5⟩, [wEdge0, wEdge1]⟩

/-- Fixture root node with the single leaf child. -/
def wRoot : TreeNode := ⟨1, ⟨0, 10, 0, 5⟩, [⟨0, true⟩]⟩

/-- Fixture index: one root, one leaf, four coordinates. -/
def wTree : StaticRTree := ⟨[wRoot], [wLeaf], wCoords⟩

/-!  Helper lemmas: the priority-queue pop. -/

theorem popMinAux_fst_mem (c : QueryCandidate) (l : List QueryCandidate) :
    (popMinAux c l).1 ∈ c :: l := by
  induction l generalizing c with
  | nil => simp [popMinAux]
  | cons d ds ih =>
    simp only [popMinAux]
    split
    · rcases List.mem_cons.mp (ih d) with h | h
      · simp [h]
      · simp [List.mem_cons, h]
    · simp

theorem popMinAux_snd_subset (c : QueryCandidate) (l : List QueryCandidate) :
    ∀ x ∈ (popMinAux c l).2, x ∈ c :: l := by
  induction l generalizing c with
  | nil => simp [popMinAux]
  | cons d ds ih =>
    simp only [popMinAux]
    split
    · intro x hx
      rcases List.mem_cons.mp hx with h | h
      · simp [h]
      · rcases List.mem_cons.mp (ih d x h) with h2 | h2
        · simp [h2]
        · simp [List.mem_cons, h2]
    · intro x hx
      exact List.mem_cons_of_mem c hx

theorem popMinAux_fst_min (c : QueryCandidate) (l : List QueryCandidate) :
    ∀ x ∈ c :: l, (popMinAux c l).1.squared_min_dist ≤ x.squared_min_dist := by
  induction l generalizing c with
  | nil =>
    intro x hx
    rcases List.mem_cons.mp hx with h | h
    · subst h; simp [popMinAux]
    · simp at h
  | cons d ds ih =>
    intro x hx
    simp only [popMinAux]
    split
    · next hlt =>
      rcases List.mem_cons.mp hx with h | h
      · subst h; exact le_of_lt hlt
      · exact ih d x h
    · next hge =>
      rcases List.mem_cons.mp hx with h | h
      · subst h; exact le_refl _
      · exact le_trans (le_of_not_lt hge) (ih d x h)

/-!  Helper lemmas: rectangle geometry. -/

theorem containsQ_of_containsPt {r : RectangleInt2D} {c : Coordinate}
    (h : containsPt r c) : containsQ r (c.lon : ℚ) (c.lat : ℚ) := by
  obtain ⟨h1, h2, h3, h4⟩ := h
  refine ⟨?_, ?_, ?_, ?_⟩ <;> exact_mod_cast ‹_›

theorem rectSubset_refl (r : RectangleInt2D) : rectSubset r r :=
  ⟨le_refl _, le_refl _, le_refl _, le_refl _⟩

theorem rectSubset_trans {a b c : RectangleInt2D}
    (h1 : rectSubset a b) (h2 : rectSubset b c) : rectSubset a c := by
  obtain ⟨x1, x2, x3, x4⟩ := h1
  obtain ⟨y1, y2, y3, y4⟩ := h2
  exact ⟨le_trans y1 x1, le_trans x2 y2, le_trans y3 x3, le_trans x4 y4⟩

theorem containsPt_of_subset {a b : RectangleInt2D} {p : Coordinate}
    (hsub : rectSubset a b) (h : containsPt a p) : containsPt b p := by
  obtain ⟨x1, x2, x3, x4⟩ := hsub
  obtain ⟨h1, h2, h3, h4⟩ := h
  exact ⟨le_trans x1 h1, le_trans h2 x2, le_trans x3 h3, le_trans h4 x4⟩

theorem GetMinSquaredDist_eq (r : RectangleInt2D) (p : Coordinate) :
    r.GetMinSquaredDist p =
      ((max 0 (max (r.min_lon - p.lon) (p.lon - r.max_lon))) *
         (max 0 (max (r.min_lon - p.lon) (p.lon - r.max_lon))) +
       (max 0 (max (r.min_lat - p.lat) (p.lat - r.max_lat))) *
         (max 0 (max (r.min_lat - p.lat) (p.lat - r.max_lat)))).toNat := rfl

theorem GetMinSquaredDist_mono {a b : RectangleInt2D} (h : rectSubset a b)
    (p : Coordinate) : b.GetMinSquaredDist p ≤ a.GetMinSquaredDist p := by
  obtain ⟨h1, h2, h3, h4⟩ := h
  rw [GetMinSquaredDist_eq, GetMinSquaredDist_eq]
  apply Int.toNat_le_toNat
  have h0bx : (0 : Int) ≤ max 0 (max (b.min_lon - p.lon) (p.lon - b.max_lon)) := le_max_left _ _
  have h0by : (0 : Int) ≤ max 0 (max (b.min_lat - p.lat) (p.lat - b.max_lat)) := le_max_left _ _
  have hdx : max 0 (max (b.min_lon - p.lon) (p.lon - b.max_lon)) ≤
      max 0 (max (a.min_lon - p.lon) (p.lon - a.max_lon)) := by
    apply max_le_max (le_refl 0)
    apply max_le_max <;> omega
  have hdy : max 0 (max (b.min_lat - p.lat) (p.lat - b.max_lat)) ≤
      max 0 (max (a.min_lat - p.lat) (p.lat - a.max_lat)) := by
    apply max_le_max (le_refl 0)
    apply max_le_max <;> omega
  exact add_le_add (mul_le_mul hdx hdx h0bx (le_trans h0bx hdx))
    (mul_le_mul hdy hdy h0by (le_trans h0by hdy))

theorem axis_gap_sq_le {lo hi pv : Int} {x : ℚ} (h1 : (lo : ℚ) ≤ x) (h2 : x ≤ (hi : ℚ)) :
    ((max 0 (max (lo - pv) (pv - hi)) : Int) : ℚ) *
      ((max 0 (max (lo - pv) (pv - hi)) : Int) : ℚ) ≤ ((pv : ℚ) - x) ^ 2 := by
  have h0 : (0 : Int) ≤ max 0 (max (lo - pv) (pv - hi)) := le_max_left _ _
  have h0q : (0 : ℚ) ≤ ((max 0 (max (lo - pv) (pv - hi)) : Int) : ℚ) := by exact_mod_cast h0
  have hdq : ((max 0 (max (lo - pv) (pv - hi)) : Int) : ℚ) ≤ |(pv : ℚ) - x| := by
    push_cast
    have hA : ((lo : ℚ) - (pv : ℚ)) ≤ |(pv : ℚ) - x| := by
      have hA1 : ((lo : ℚ) - (pv : ℚ)) ≤ -((pv : ℚ) - x) := by linarith
      exact le_trans hA1 (neg_le_abs _)
    have hB : ((pv : ℚ) - (hi : ℚ)) ≤ |(pv : ℚ) - x| := by
      have hB1 : ((pv : ℚ) - (hi : ℚ)) ≤ (pv : ℚ) - x := by linarith
      exact le_trans hB1 (le_abs_self _)
    exact max_le (abs_nonneg _) (max_le hA hB)
  calc ((max 0 (max (lo - pv) (pv - hi)) : Int) : ℚ) *
        ((max 0 (max (lo - pv) (pv - hi)) : Int) : ℚ)
      ≤ |(pv : ℚ) - x| * |(pv : ℚ) - x| := mul_le_mul hdq hdq h0q (abs_nonneg _)
    _ = ((pv : ℚ) - x) ^ 2 := by rw [abs_mul_abs_self]; ring

theorem GetMinSquaredDist_le_sq {r : RectangleInt2D} {x y : ℚ}
    (h : containsQ r x y) (p : Coordinate) :
    ((r.GetMinSquaredDist p : ℚ)) ≤ squaredEuclideanDistance p ⟨x, y⟩ := by
  obtain ⟨hx1, hx2, hy1, hy2⟩ := h
  have hx := @axis_gap_sq_le r.min_lon r.max_lon p.lon x hx1 hx2
  have hy := @axis_gap_sq_le r.min_lat r.max_lat p.lat y hy1 hy2
  have h0x : (0 : Int) ≤ max 0 (max (r.min_lon - p.lon) (p.lon - r.max_lon)) := le_max_left _ _
  have h0y : (0 : Int) ≤ max 0 (max (r.min_lat - p.lat) (p.lat - r.max_lat)) := le_max_left _ _
  rw [GetMinSquaredDist_eq]
  unfold squaredEuclideanDistance
  set dx := max 0 (max (r.min_lon - p.lon) (p.lon - r.max_lon)) with hdx
  set dy := max 0 (max (r.min_lat - p.lat) (p.lat - r.max_lat)) with hdy
  have hnn : (0 : Int) ≤ dx * dx + dy * dy :=
    add_nonneg (mul_nonneg h0x h0x) (mul_nonneg h0y h0y)
  have hc : (((dx * dx + dy * dy).toNat : ℚ)) = ((dx * dx + dy * dy : Int) : ℚ) := by
    exact_mod_cast Int.toNat_of_nonneg hnn
  rw [hc]
  push_cast
  linarith

theorem GetMinSquaredDist_le_floor {r : RectangleInt2D} {x y : ℚ}
    (h : containsQ r x y) (p : Coordinate) :
    r.GetMinSquaredDist p ≤ ⌊squaredEuclideanDistance p ⟨x, y⟩⌋₊ :=
  Nat.le_floor (GetMinSquaredDist_le_sq h p)

theorem clampRatio_nonneg (x : ℚ) : 0 ≤ clampRatio x := by
  unfold clampRatio
  split_ifs with h1 h2
  · norm_num
  · exact le_refl 0
  · exact le_of_not_lt h2

theorem clampRatio_le_one (x : ℚ) : clampRatio x ≤ 1 := by
  unfold clampRatio
  split_ifs with h1 h2
  · exact le_refl 1
  · norm_num
  · exact le_of_not_lt h1

theorem convex_le {lo aq bq t : ℚ} (h0 : 0 ≤ t) (h1 : t ≤ 1)
    (hA : lo ≤ aq) (hB : lo ≤ bq) : lo ≤ aq + t * (bq - aq) := by
  nlinarith [mul_nonneg h0 (sub_nonneg.mpr hB),
    mul_nonneg (sub_nonneg.mpr h1) (sub_nonneg.mpr hA)]

theorem convex_ge {hi aq bq t : ℚ} (h0 : 0 ≤ t) (h1 : t ≤ 1)
    (hA : aq ≤ hi) (hB : bq ≤ hi) : aq + t * (bq - aq) ≤ hi := by
  nlinarith [mul_nonneg h0 (sub_nonneg.mpr hB),
    mul_nonneg (sub_nonneg.mpr h1) (sub_nonneg.mpr hA)]

theorem projectPoint_mem_rect {r : RectangleInt2D} {a b q : FloatCoordinate}
    (ha : containsQ r a.lon a.lat) (hb : containsQ r b.lon b.lat) :
    containsQ r ((projectPointOnSegment a b q).2).lon
      ((projectPointOnSegment a b q).2).lat := by
  unfold projectPointOnSegment
  split_ifs with hsq
  · exact ha
  · have h0 : 0 ≤ projectRatio a b q := clampRatio_nonneg _
    have h1 : projectRatio a b q ≤ 1 := clampRatio_le_one _
    obtain ⟨ha1, ha2, ha3, ha4⟩ := ha
    obtain ⟨hb1, hb2, hb3, hb4⟩ := hb
    exact ⟨convex_le h0 h1 ha1 hb1, convex_ge h0 h1 ha2 hb2,
      convex_le h0 h1 ha3 hb3, convex_ge h0 h1 ha4 hb4⟩

/-!  Helper lemmas: the two exploration steps of the best-first search. -/

theorem getD_mem {α : Type} (l : List α) (i : Nat) (d : α) (h : i < l.length) :
    l.getD i d ∈ l := by
  rw [List.getD_eq_getElem l d h]
  exact List.getElem_mem h

theorem exploreLeaf_lb (t : StaticRTree) (latToY : Int → Int) (leaf_id : TreeIndex)
    (pf : Coordinate)
    (hleaf : ∀ i < (t.m_leaves.getD leaf_id.index default).object_count,
      containsPt (t.m_leaves.getD leaf_id.index default).minimum_bounding_rectangle
        (fromWGS84 latToY (t.m_coordinate_list.getD
          ((t.m_leaves.getD leaf_id.index default).objects.getD i default).u default)) ∧
      containsPt (t.m_leaves.getD leaf_id.index default).minimum_bounding_rectangle
        (fromWGS84 latToY (t.m_coordinate_list.getD
          ((t.m_leaves.getD leaf_id.index default).objects.getD i default).v default))) :
    ∀ c ∈ ExploreLeafNode t latToY leaf_id pf,
      (t.m_leaves.getD leaf_id.index default).minimum_bounding_rectangle.GetMinSquaredDist pf
        ≤ c.squared_min_dist := by
  intro c hc
  simp only [ExploreLeafNode, List.mem_map, List.mem_range] at hc
  obtain ⟨i, hi, rfl⟩ := hc
  obtain ⟨hu, hv⟩ := hleaf i hi
  exact GetMinSquaredDist_le_floor
    (projectPoint_mem_rect (containsQ_of_containsPt hu) (containsQ_of_containsPt hv)) pf

theorem exploreTree_keyIsLB (t : StaticRTree) (pf : Coordinate) (parent_id : TreeIndex) :
    ∀ e ∈ ExploreTreeNode t parent_id pf, keyIsLB t pf e := by
  intro e he
  simp only [ExploreTreeNode, List.mem_map, List.mem_range] at he
  obtain ⟨i, _, rfl⟩ := he
  intro _
  exact le_refl _

theorem exploreTree_key_ge (t : StaticRTree) (latToY : Int → Int) (pf : Coordinate)
    (wf : WellFormedTree t latToY) (cur : QueryCandidate)
    (hlb : keyIsLB t pf cur) (hseg : cur.is_segment = false)
    (hnl : cur.tree_index.is_leaf = false) :
    ∀ e ∈ ExploreTreeNode t cur.tree_index pf,
      cur.squared_min_dist ≤ e.squared_min_dist := by
  intro e he
  simp only [ExploreTreeNode, List.mem_map, List.mem_range] at he
  obtain ⟨i, hi, rfl⟩ := he
  by_cases hidx : cur.tree_index.index < t.m_search_tree.length
  · have hmem := getD_mem t.m_search_tree cur.tree_index.index default hidx
    have hsub := wf.1 _ hmem i hi
    have hmono := GetMinSquaredDist_mono hsub pf
    have h1 := hlb hseg
    simp only [childRectangle, hnl, Bool.false_eq_true, if_false] at h1
    exact le_trans h1 hmono
  · rw [List.getD_eq_default t.m_search_tree default (le_of_not_lt hidx)] at hi
    simp only [default, instInhabitedTreeNode] at hi
    omega

theorem exploreLeaf_key_ge (t : StaticRTree) (latToY : Int → Int) (pf : Coordinate)
    (wf : WellFormedTree t latToY) (cur : QueryCandidate)
    (hlb : keyIsLB t pf cur) (hseg : cur.is_segment = false)
    (hl : cur.tree_index.is_leaf = true) :
    ∀ e ∈ ExploreLeafNode t latToY cur.tree_index pf,
      cur.squared_min_dist ≤ e.squared_min_dist := by
  intro e he
  by_cases hidx : cur.tree_index.index < t.m_leaves.length
  · have hmem := getD_mem t.m_leaves cur.tree_index.index default hidx
    have h2 := exploreLeaf_lb t latToY cur.tree_index pf
      (fun i hi => wf.2.1 _ hmem i hi) e he
    have h1 := hlb hseg
    simp only [childRectangle, hl, if_true] at h1
    exact le_trans h1 h2
  · exfalso
    simp only [ExploreLeafNode, List.mem_map, List.mem_range] at he
    obtain ⟨i, hi, _⟩ := he
    rw [List.getD_eq_default t.m_leaves default (le_of_not_lt hidx)] at hi
    simp only [default, instInhabitedLeafNode] at hi
    omega

theorem exploreLeaf_is_segment (t : StaticRTree) (latToY : Int → Int)
    (leaf_id : TreeIndex) (pf : Coordinate) (wf : WellFormedTree t latToY) :
    ∀ e ∈ ExploreLeafNode t latToY leaf_id pf, e.is_segment = true := by
  intro e he
  simp only [ExploreLeafNode, List.mem_map, List.mem_range] at he
  obtain ⟨i, hi, rfl⟩ := he
  by_cases hidx : leaf_id.index < t.m_leaves.length
  · have hcnt := wf.2.2 _ (getD_mem t.m_leaves leaf_id.index default hidx)
    have hne : i ≠ SEGMENT_SENTINEL := Nat.ne_of_lt (lt_trans hi hcnt)
    simp [QueryCandidate.is_segment, hne]
  · exfalso
    rw [List.getD_eq_default t.m_leaves default (le_of_not_lt hidx)] at hi
    simp only [default, instInhabitedLeafNode] at hi
    omega

/-!  The best-first search pops keys in non-decreasing order; the recorded
result distances inherit the order. -/

theorem nearestLoop_sorted_aux (t : StaticRTree) (latToY : Int → Int)
    (filter : CandidateSegment → Bool × Bool) (terminate : Nat → CandidateSegment → Bool)
    (pf : Coordinate) (wf : WellFormedTree t latToY) :
    ∀ fuel queue results,
      (∀ c ∈ queue, keyIsLB t pf c) →
      (∀ c ∈ queue, ∀ dr ∈ results, dr.1 ≤ c.squared_min_dist) →
      List.Pairwise resultLE results →
      List.Pairwise resultLE (nearestLoop t latToY filter terminate pf fuel queue results) := by
  intro fuel
  induction fuel with
  | zero =>
    intro queue results _ _ hres
    simpa [nearestLoop] using hres
  | succ fuel ih =>
    intro queue results hq hqr hres
    match queue with
    | [] => simpa [nearestLoop] using hres
    | c :: cs =>
      have hcurmem := popMinAux_fst_mem c cs
      have hrestsub := popMinAux_snd_subset c cs
      have hcurmin := popMinAux_fst_min c cs
      have hcurlb : keyIsLB t pf (popMinAux c cs).1 := hq _ hcurmem
      by_cases hseg : (popMinAux c cs).1.is_segment = true
      · by_cases hterm :
          terminate results.length (segmentCandidate t (popMinAux c cs).1) = true
        · simp only [nearestLoop, hseg, hterm, if_true]
          exact hres
        · by_cases hfilt : (filter (segmentCandidate t (popMinAux c cs).1)).1 = false ∧
            (filter (segmentCandidate t (popMinAux c cs).1)).2 = false
          · simp only [nearestLoop, hseg, hterm, hfilt, if_true, if_false,
              Bool.false_eq_true]
            apply ih
            · exact fun x hx => hq x (hrestsub x hx)
            · exact fun x hx => hqr x (hrestsub x hx)
            · exact hres
          · simp only [nearestLoop, hseg, hterm, hfilt, if_true, if_false,
              Bool.false_eq_true]
            apply ih
            · exact fun x hx => hq x (hrestsub x hx)
            · intro x hx dr hdr
              rcases List.mem_append.mp hdr with h | h
              · exact le_trans (hqr _ hcurmem dr h) (hcurmin x (hrestsub x hx))
              · rcases List.mem_singleton.mp h with rfl
                exact hcurmin x (hrestsub x hx)
            · rw [List.pairwise_append]
              refine ⟨hres, List.pairwise_singleton _ _, ?_⟩
              intro a ha b hb
              rcases List.mem_singleton.mp hb with rfl
              exact hqr _ hcurmem a ha
      · have hseg' : (popMinAux c cs).1.is_segment = false := eq_false_of_ne_true hseg
        by_cases hl : (popMinAux c cs).1.tree_index.is_leaf = true
        · simp only [nearestLoop, hseg', hl, if_true, if_false, Bool.false_eq_true]
          apply ih
          · intro x hx
            rcases List.mem_append.mp hx with h | h
            · intro hf
              rw [exploreLeaf_is_segment t latToY _ pf wf x h] at hf
              cases hf
            · exact hq x (hrestsub x h)
          · intro x hx dr hdr
            rcases List.mem_append.mp hx with h | h
            · exact le_trans (hqr _ hcurmem dr hdr)
                (exploreLeaf_key_ge t latToY pf wf _ hcurlb hseg' hl x h)
            · exact hqr x (hrestsub x h) dr hdr
          · exact hres
        · have hl' : (popMinAux c cs).1.tree_index.is_leaf = false := eq_false_of_ne_true hl
          simp only [nearestLoop, hseg', hl', if_true, if_false, Bool.false_eq_true]
          apply ih
          · intro x hx
            rcases List.mem_append.mp hx with h | h
            · exact exploreTree_keyIsLB t pf _ x h
            · exact hq x (hrestsub x h)
          · intro x hx dr hdr
            rcases List.mem_append.mp hx with h | h
            · exact le_trans (hqr _ hcurmem dr hdr)
                (exploreTree_key_ge t latToY pf wf _ hcurlb hseg' hl' x h)
            · exact hqr x (hrestsub x h) dr hdr
          · exact hres

/-- Claim C1: for every query point, filter and terminator, on a well-formed
index (child rectangles contained in parent mbrs, stored projected endpoints
contained in leaf mbrs, object counts below the sentinel), the result list of
`Nearest` is sorted in non-decreasing order of the squared projected
fixed-point distance between the projection of the query and the nearest
projected point of the candidate on the edge: for every `i < j` in the result
vector, the distance recorded at `i` is at most the distance recorded at `j`
(`NearestWithDist` instruments the loop with exactly the pushed candidate
distance; `Nearest` is its edge projection). -/
theorem nearest_results_sorted (t : StaticRTree) (latToY : Int → Int)
    (filter : CandidateSegment → Bool × Bool)
    (terminate : Nat → CandidateSegment → Bool)
    (input_coordinate : Coordinate) (fuel : Nat)
    (wf : WellFormedTree t latToY) :
    ∀ i j, i < j →
      ∀ hj : j < (NearestWithDist t latToY filter terminate input_coordinate fuel).length,
        ((NearestWithDist t latToY filter terminate input_coordinate fuel).getD i
            (0, default)).1 ≤
        ((NearestWithDist t latToY filter terminate input_coordinate fuel).getD j
            (0, default)).1 := by
  have hp : List.Pairwise resultLE
      (NearestWithDist t latToY filter terminate input_coordinate fuel) := by
    unfold NearestWithDist
    apply nearestLoop_sorted_aux t latToY filter terminate _ wf
    · intro c hc
      rcases List.mem_singleton.mp hc with rfl
      intro _
      exact Nat.zero_le _
    · intro c _ dr hdr
      simp at hdr
    · exact List.Pairwise.nil
  intro i j hij hj
  have hi : i < (NearestWithDist t latToY filter terminate input_coordinate fuel).length :=
    lt_trans hij hj
  rw [List.getD_eq_getElem _ _ hi, List.getD_eq_getElem _ _ hj]
  exact List.pairwise_iff_getElem.mp hp i j hi hj hij

/-- Witness for C1: the fixture index is well-formed and a concrete query on
it returns a sorted list. -/
theorem nearest_results_sorted_witness :
    WellFormedTree wTree (fun z => z) ∧
    (∀ i j, i < j →
      ∀ hj : j < (NearestWithDist wTree (fun z => z) (fun _ => (true, true))
          (fun _ _ => false) ⟨1, 1⟩ 10).length,
        ((NearestWithDist wTree (fun z => z) (fun _ => (true, true))
            (fun _ _ => false) ⟨1, 1⟩ 10).getD i (0, default)).1 ≤
        ((NearestWithDist wTree (fun z => z) (fun _ => (true, true))
            (fun _ _ => false) ⟨1, 1⟩ 10).getD j (0, default)).1) :=
  ⟨by decide,
   nearest_results_sorted wTree (fun z => z) (fun _ => (true, true))
     (fun _ _ => false) ⟨1, 1⟩ 10 (by decide)⟩

/-- Claim C2: for every leaf in the index whose stored segments have their
projected endpoints inside the leaf mbr (the build invariant), and for every
query point, the lower bound of the leaf — `GetMinSquaredDist` of its mbr at
the projected query — is at most the squared distance pushed for each of its
`object_count` segments, which is the squared distance from the projected
query to the clamped foot of perpendicular on that segment. -/
theorem leaf_lower_bound (t : StaticRTree) (latToY : Int → Int) (leaf_id : TreeIndex)
    (pf : Coordinate)
    (hleaf : ∀ i < (t.m_leaves.getD leaf_id.index default).object_count,
      containsPt (t.m_leaves.getD leaf_id.index default).minimum_bounding_rectangle
        (fromWGS84 latToY (t.m_coordinate_list.getD
          ((t.m_leaves.getD leaf_id.index default).objects.getD i default).u default)) ∧
      containsPt (t.m_leaves.getD leaf_id.index default).minimum_bounding_rectangle
        (fromWGS84 latToY (t.m_coordinate_list.getD
          ((t.m_leaves.getD leaf_id.index default).objects.getD i default).v default))) :
    ∀ c ∈ ExploreLeafNode t latToY leaf_id pf,
      (t.m_leaves.getD leaf_id.index default).minimum_bounding_rectangle.GetMinSquaredDist
          pf ≤ c.squared_min_dist :=
  exploreLeaf_lb t latToY leaf_id pf hleaf

/-- Witness for C2 at the fixture leaf and a concrete query point. -/
theorem leaf_lower_bound_witness :
    (∀ i < (wTree.m_leaves.getD (0 : Nat) default).object_count,
      containsPt (wTree.m_leaves.getD (0 : Nat) default).minimum_bounding_rectangle
        (fromWGS84 (fun z => z) (wTree.m_coordinate_list.getD
          ((wTree.m_leaves.getD (0 : Nat) default).objects.getD i default).u default)) ∧
      containsPt (wTree.m_leaves.getD (0 : Nat) default).minimum_bounding_rectangle
        (fromWGS84 (fun z => z) (wTree.m_coordinate_list.getD
          ((wTree.m_leaves.getD (0 : Nat) default).objects.getD i default).v default))) ∧
    (∀ c ∈ ExploreLeafNode wTree (fun z => z) ⟨0, true⟩ ⟨3, 2⟩,
      (wTree.m_leaves.getD ((⟨0, true⟩ : TreeIndex)).index
          default).minimum_bounding_rectangle.GetMinSquaredDist ⟨3, 2⟩ ≤
        c.squared_min_dist) :=
  ⟨by decide, leaf_lower_bound wTree (fun z => z) ⟨0, true⟩ ⟨3, 2⟩ (by decide)⟩

/-!  Helper lemmas: window search. -/

theorem reach_rect_subset (t : StaticRTree) (latToY : Int → Int)
    (wf : WellFormedTree t latToY) {a b : TreeIndex} (h : ReachFrom t a b) :
    rectSubset (childRectangle t b) (childRectangle t a) := by
  induction h with
  | refl => exact rectSubset_refl _
  | step a c i hnl hi _ ih =>
    by_cases hidx : a.index < t.m_search_tree.length
    · have hmem := getD_mem t.m_search_tree a.index default hidx
      have hsub := wf.1 _ hmem i hi
      have : rectSubset (childRectangle t ((t.m_search_tree.getD a.index default).children.getD i default)) (childRectangle t a) := by
        simp only [childRectangle, hnl, Bool.false_eq_true, if_false]
        exact hsub
      exact rectSubset_trans ih this
    · exfalso
      rw [List.getD_eq_default t.m_search_tree default (le_of_not_lt hidx)] at hi
      simp only [default, instInhabitedTreeNode] at hi
      omega

theorem child_intersects {crect : RectangleInt2D} {cu cv : Coordinate}
    {R : RectangleInt2D} (latToY : Int → Int)
    (hmono : ∀ a b : Int, a ≤ b → latToY a ≤ latToY b)
    (hu : containsPt crect (fromWGS84 latToY cu))
    (hv : containsPt crect (fromWGS84 latToY cv))
    (hint : RectangleInt2D.Intersects
      ⟨min cu.lon cv.lon, max cu.lon cv.lon, min cu.lat cv.lat, max cu.lat cv.lat⟩ R
        = true) :
    crect.Intersects (projectRectangle latToY R) = true := by
  simp only [RectangleInt2D.Intersects, Bool.and_eq_true, decide_eq_true_eq] at hint ⊢
  obtain ⟨hlon, hlat⟩ := hint
  obtain ⟨hu1, hu2, hu3, hu4⟩ := hu
  obtain ⟨hv1, hv2, hv3, hv4⟩ := hv
  have hb1 : min cu.lon cv.lon ≤ R.max_lon :=
    le_trans (le_trans (le_max_left _ _) hlon) (min_le_right _ _)
  have hb2 : R.min_lon ≤ max cu.lon cv.lon :=
    le_trans (le_trans (le_max_right _ _) hlon) (min_le_left _ _)
  have hb3 : R.min_lon ≤ R.max_lon :=
    le_trans (le_trans (le_max_right _ _) hlon) (min_le_right _ _)
  have hc1 : min cu.lat cv.lat ≤ R.max_lat :=
    le_trans (le_trans (le_max_left _ _) hlat) (min_le_right _ _)
  have hc2 : R.min_lat ≤ max cu.lat cv.lat :=
    le_trans (le_trans (le_max_right _ _) hlat) (min_le_left _ _)
  have hc3 : R.min_lat ≤ R.max_lat :=
    le_trans (le_trans (le_max_right _ _) hlat) (min_le_right _ _)
  constructor
  · refine max_le (le_min ?_ ?_) (le_min ?_ ?_)
    · exact le_trans hu1 hu2
    · exact le_trans (le_min hu1 hv1) hb1
    · exact le_trans hb2 (max_le hu2 hv2)
    · exact hb3
  · simp only [projectRectangle]
    refine max_le (le_min ?_ ?_) (le_min ?_ ?_)
    · exact le_trans hu3 hu4
    · have hmin : crect.min_lat ≤ latToY (min cu.lat cv.lat) := by
        rcases min_choice cu.lat cv.lat with h | h <;> rw [h]
        · exact hu3
        · exact hv3
      exact le_trans hmin (hmono _ _ hc1)
    · have hmax : latToY (max cu.lat cv.lat) ≤ crect.max_lat := by
        rcases max_choice cu.lat cv.lat with h | h <;> rw [h]
        · exact hu4
        · exact hv4
      exact le_trans (hmono _ _ hc2) hmax
    · exact hmono _ _ hc3

theorem searchLoop_sound (t : StaticRTree) (sr pr : RectangleInt2D) :
    ∀ fuel queue acc res,
      searchInBoxLoop t sr pr fuel queue acc = some res →
      (∀ e ∈ acc, (edgeGeoBBox t e).Intersects sr = true) →
      ∀ e ∈ res, (edgeGeoBBox t e).Intersects sr = true := by
  intro fuel
  induction fuel with
  | zero =>
    intro queue acc res hrun hacc
    match queue, hrun with
    | [], hrun =>
      simp only [searchInBoxLoop, Option.some.injEq] at hrun
      subst hrun
      exact hacc
  | succ fuel ih =>
    intro queue acc res hrun hacc
    match queue, hrun with
    | [], hrun =>
      simp only [searchInBoxLoop, Option.some.injEq] at hrun
      subst hrun
      exact hacc
    | ti :: rest, hrun =>
      by_cases hl : ti.is_leaf = true
      · simp only [searchInBoxLoop, hl, if_true] at hrun
        refine ih rest _ res hrun ?_
        intro e he
        rcases List.mem_append.mp he with h | h
        · exact hacc e h
        · rcases List.mem_filterMap.mp h with ⟨i, _, hfi⟩
          by_cases htest : (edgeGeoBBox t
              ((t.m_leaves.getD ti.index default).objects.getD i default)).Intersects sr = true
          · simp only [htest, if_true, Option.some.injEq] at hfi
            subst hfi
            exact htest
          · simp only [htest] at hfi
            simp at hfi
      · have hl' : ti.is_leaf = false := eq_false_of_ne_true hl
        simp only [searchInBoxLoop, hl', Bool.false_eq_true, if_false] at hrun
        exact ih _ acc res hrun hacc

theorem searchLoop_complete (t : StaticRTree) (latToY : Int → Int)
    (sr : RectangleInt2D)
    (hmono : ∀ a b : Int, a ≤ b → latToY a ≤ latToY b)
    (wf : WellFormedTree t latToY) :
    ∀ fuel queue acc res,
      searchInBoxLoop t sr (projectRectangle latToY sr) fuel queue acc = some res →
      (∀ e ∈ acc, e ∈ res) ∧
      (∀ ti ∈ queue, ∀ lt2 : TreeIndex, ReachFrom t ti lt2 → lt2.is_leaf = true →
        ∀ i < (t.m_leaves.getD lt2.index default).object_count,
          (edgeGeoBBox t
            ((t.m_leaves.getD lt2.index default).objects.getD i default)).Intersects sr
              = true →
          (t.m_leaves.getD lt2.index default).objects.getD i default ∈ res) := by
  intro fuel
  induction fuel with
  | zero =>
    intro queue acc res hrun
    match queue, hrun with
    | [], hrun =>
      simp only [searchInBoxLoop, Option.some.injEq] at hrun
      subst hrun
      exact ⟨fun e he => he, by intro ti hti; simp at hti⟩
  | succ fuel ih =>
    intro queue acc res hrun
    match queue, hrun with
    | [], hrun =>
      simp only [searchInBoxLoop, Option.some.injEq] at hrun
      subst hrun
      exact ⟨fun e he => he, by intro ti hti; simp at hti⟩
    | ti :: rest, hrun =>
      by_cases hl : ti.is_leaf = true
      · simp only [searchInBoxLoop, hl, if_true] at hrun
        obtain ⟨hsub, hq⟩ := ih rest _ res hrun
        constructor
        · exact fun e he => hsub e (List.mem_append_left _ he)
        · intro x hx lt2 hreach hleaf i hi hint
          rcases List.mem_cons.mp hx with rfl | hx
          · cases hreach with
            | refl =>
              apply hsub
              apply List.mem_append_right
              apply List.mem_filterMap.mpr
              refine ⟨i, List.mem_range.mpr hi, ?_⟩
              simp only [hint, if_true]
            | step a c j hnl hj hrec =>
              rw [hl] at hnl
              cases hnl
          · exact hq x hx lt2 hreach hleaf i hi hint
      · have hl' : ti.is_leaf = false := eq_false_of_ne_true hl
        simp only [searchInBoxLoop, hl', Bool.false_eq_true, if_false] at hrun
        obtain ⟨hsub, hq⟩ := ih _ acc res hrun
        constructor
        · exact hsub
        · intro x hx lt2 hreach hleaf i hi hint
          rcases List.mem_cons.mp hx with rfl | hx
          · cases hreach with
            | refl =>
              rw [hleaf] at hl
              exact absurd rfl hl
            | step a c j hnl hj hrec =>
              -- the child the path steps into is enqueued, since its rectangle
              -- intersects the projected query rectangle
              have hlt2idx : lt2.index < t.m_leaves.length := by
                by_contra hcon
                rw [List.getD_eq_default t.m_leaves default (le_of_not_lt hcon)] at hi
                simp only [default, instInhabitedLeafNode] at hi
                omega
              have hlfmem := getD_mem t.m_leaves lt2.index default hlt2idx
              obtain ⟨hu, hv⟩ := wf.2.1 _ hlfmem i hi
              have hsubrect := reach_rect_subset t latToY wf hrec
              have hsubrect2 : rectSubset
                  (t.m_leaves.getD lt2.index default).minimum_bounding_rectangle
                  (childRectangle t
                    ((t.m_search_tree.getD x.index default).children.getD j default)) := by
                have : childRectangle t lt2 =
                    (t.m_leaves.getD lt2.index default).minimum_bounding_rectangle := by
                  simp only [childRectangle, hleaf, if_true]
                rw [← this]
                exact hsubrect
              have hchild := child_intersects latToY hmono
                (containsPt_of_subset hsubrect2 hu) (containsPt_of_subset hsubrect2 hv) hint
              apply hq _ (List.mem_append_right _ ?_) lt2 hrec hleaf i hi hint
              apply List.mem_filterMap.mpr
              refine ⟨j, List.mem_range.mpr hj, ?_⟩
              simp only [hchild, if_true]
          · exact hq x (List.mem_append_left _ hx) lt2 hreach hleaf i hi hint

/-- Claim C3: on a well-formed index with a monotone latitude projection, for
every query rectangle in unprojected geographic coordinates, a completed
`SearchInBox` run returns exactly the edges whose geographic endpoint bounding
box intersects the query rectangle: every returned edge intersects, and every
edge stored in a leaf reachable from the root whose box intersects is
returned. -/
theorem searchInBox_sound_complete (t : StaticRTree) (latToY : Int → Int)
    (R : RectangleInt2D) (fuel : Nat) (res : List EdgeDataT)
    (hmono : ∀ a b : Int, a ≤ b → latToY a ≤ latToY b)
    (wf : WellFormedTree t latToY)
    (hrun : SearchInBox t latToY R fuel = some res) :
    (∀ e ∈ res, (edgeGeoBBox t e).Intersects R = true) ∧
    (∀ lt2 : TreeIndex, Reaches t lt2 → lt2.is_leaf = true →
      ∀ i < (t.m_leaves.getD lt2.index default).object_count,
        (edgeGeoBBox t
          ((t.m_leaves.getD lt2.index default).objects.getD i default)).Intersects R
            = true →
        (t.m_leaves.getD lt2.index default).objects.getD i default ∈ res) := by
  unfold SearchInBox at hrun
  constructor
  · refine searchLoop_sound t R _ fuel _ [] res hrun ?_
    intro e he
    simp at he
  · intro lt2 hreach hleaf i hi hint
    exact (searchLoop_complete t latToY R hmono wf fuel _ [] res hrun).2
      ⟨0, false⟩ (List.mem_singleton.mpr rfl) lt2 hreach hleaf i hi hint

/-- Witness for C3 at the fixture index and a concrete query rectangle. -/
theorem searchInBox_sound_complete_witness :
    (∀ a b : Int, a ≤ b → (fun z => z) a ≤ (fun z => z) b) ∧
    WellFormedTree wTree (fun z => z) ∧
    SearchInBox wTree (fun z => z) ⟨-1, 5, -1, 2⟩ 10 = some [wEdge0] ∧
    ((∀ e ∈ [wEdge0], (edgeGeoBBox wTree e).Intersects ⟨-1, 5, -1, 2⟩ = true) ∧
     (∀ lt2 : TreeIndex, Reaches wTree lt2 → lt2.is_leaf = true →
       ∀ i < (wTree.m_leaves.getD lt2.index default).object_count,
         (edgeGeoBBox wTree
           ((wTree.m_leaves.getD lt2.index default).objects.getD i default)).Intersects
             ⟨-1, 5, -1, 2⟩ = true →
         (wTree.m_leaves.getD lt2.index default).objects.getD i default ∈ [wEdge0])) :=
  ⟨fun _ _ h => h, by decide, by decide,
   searchInBox_sound_complete wTree (fun z => z) ⟨-1, 5, -1, 2⟩ 10 [wEdge0]
     (fun _ _ h => h) (by decide) (by decide)⟩

/-!  Helper lemma: the zero-results terminator never admits a candidate. -/

theorem nearestLoop_zero_terminator (t : StaticRTree) (latToY : Int → Int)
    (pf : Coordinate) :
    ∀ fuel queue,
      nearestLoop t latToY (fun _ => (true, true))
        (fun num_results _ => decide (num_results ≥ 0)) pf fuel queue [] = [] := by
  intro fuel
  induction fuel with
  | zero => intro queue; simp [nearestLoop]
  | succ fuel ih =>
    intro queue
    match queue with
    | [] => simp [nearestLoop]
    | c :: cs =>
      by_cases hseg : (popMinAux c cs).1.is_segment = true
      · simp [nearestLoop, hseg]
      · have hseg' : (popMinAux c cs).1.is_segment = false := eq_false_of_ne_true hseg
        by_cases hl : (popMinAux c cs).1.tree_index.is_leaf = true
        · simp only [nearestLoop, hseg', hl, if_true, if_false, Bool.false_eq_true]
          exact ih _
        · have hl' : (popMinAux c cs).1.tree_index.is_leaf = false := eq_false_of_ne_true hl
          simp only [nearestLoop, hseg', hl', if_true, if_false, Bool.false_eq_true]
          exact ih _

/-- Claim C6: the terminator is consulted on each popped segment candidate
before it is admitted, and the search stops the instant it returns true,
without appending that candidate; in particular the convenience wrapper with
`max_results = 0` returns the empty list for every index, query point and
fuel. -/
theorem terminator_semantics :
    (∀ (t : StaticRTree) (latToY : Int → Int) (input_coordinate : Coordinate)
       (fuel : Nat), NearestMax t latToY input_coordinate 0 fuel = []) ∧
    (∀ (t : StaticRTree) (latToY : Int → Int)
       (filter : CandidateSegment → Bool × Bool)
       (terminate : Nat → CandidateSegment → Bool) (pf : Coordinate) (fuel : Nat)
       (c : QueryCandidate) (cs : List QueryCandidate)
       (results : List (Nat × EdgeDataT)),
      (popMinAux c cs).1.is_segment = true →
      terminate results.length (segmentCandidate t (popMinAux c cs).1) = true →
      nearestLoop t latToY filter terminate pf (fuel + 1) (c :: cs) results = results) := by
  constructor
  · intro t latToY input_coordinate fuel
    unfold NearestMax Nearest NearestWithDist
    rw [nearestLoop_zero_terminator]
    rfl
  · intro t latToY filter terminate pf fuel c cs results hseg hterm
    simp [nearestLoop, hseg, hterm]

/-- Witness for C6: a concrete zero-results query, and a concrete immediate
termination on a popped segment candidate. -/
theorem terminator_semantics_witness :
    NearestMax wTree (fun z => z) ⟨1, 1⟩ 0 10 = [] ∧
    ((popMinAux ⟨5, ⟨0, true⟩, 0, ⟨1, 1⟩⟩ []).1.is_segment = true ∧
     (fun (_ : Nat) (_ : CandidateSegment) => true)
       ([] : List (Nat × EdgeDataT)).length
       (segmentCandidate wTree (popMinAux ⟨5, ⟨0, true⟩, 0, ⟨1, 1⟩⟩ []).1) = true ∧
     nearestLoop wTree (fun z => z) (fun _ => (true, true)) (fun _ _ => true)
       ⟨1, 1⟩ (3 + 1) [⟨5, ⟨0, true⟩, 0, ⟨1, 1⟩⟩] [] = []) :=
  ⟨terminator_semantics.1 wTree (fun z => z) ⟨1, 1⟩ 10,
   by decide, rfl,
   terminator_semantics.2 wTree (fun z => z) (fun _ => (true, true)) (fun _ _ => true)
     ⟨1, 1⟩ 3 ⟨5, ⟨0, true⟩, 0, ⟨1, 1⟩⟩ [] [] (by decide) rfl⟩

/-- Claim C7: on a popped segment candidate that the terminator lets through,
a filter answer of (false, false) discards the candidate and the loop
continues on the remaining queue; any other answer appends the candidate edge
with its forward enabled flag equal to the AND of the stored forward flag and
the filter first component, and its reverse enabled flag equal to the AND of
the stored reverse flag and the filter second component, the payload otherwise
unchanged. -/
theorem filter_semantics (t : StaticRTree) (latToY : Int → Int)
    (filter : CandidateSegment → Bool × Bool)
    (terminate : Nat → CandidateSegment → Bool) (pf : Coordinate) (fuel : Nat)
    (c : QueryCandidate) (cs : List QueryCandidate)
    (results : List (Nat × EdgeDataT))
    (hseg : (popMinAux c cs).1.is_segment = true)
    (hterm : terminate results.length (segmentCandidate t (popMinAux c cs).1) = false) :
    ((filter (segmentCandidate t (popMinAux c cs).1)).1 = false ∧
     (filter (segmentCandidate t (popMinAux c cs).1)).2 = false →
      nearestLoop t latToY filter terminate pf (fuel + 1) (c :: cs) results =
        nearestLoop t latToY filter terminate pf fuel (popMinAux c cs).2 results) ∧
    (¬((filter (segmentCandidate t (popMinAux c cs).1)).1 = false ∧
       (filter (segmentCandidate t (popMinAux c cs).1)).2 = false) →
      nearestLoop t latToY filter terminate pf (fuel + 1) (c :: cs) results =
        nearestLoop t latToY filter terminate pf fuel (popMinAux c cs).2
          (results ++ [((popMinAux c cs).1.squared_min_dist,
            maskEdge (segmentEdge t (popMinAux c cs).1)
              (filter (segmentCandidate t (popMinAux c cs).1)))])) ∧
    (∀ (e : EdgeDataT) (use_segment : Bool × Bool),
      (maskEdge e use_segment).forward_segment_id.enabled =
        (e.forward_segment_id.enabled && use_segment.1) ∧
      (maskEdge e use_segment).reverse_segment_id.enabled =
        (e.reverse_segment_id.enabled && use_segment.2) ∧
      (maskEdge e use_segment).forward_segment_id.id = e.forward_segment_id.id ∧
      (maskEdge e use_segment).reverse_segment_id.id = e.reverse_segment_id.id ∧
      (maskEdge e use_segment).u = e.u ∧ (maskEdge e use_segment).v = e.v) := by
  refine ⟨?_, ?_, ?_⟩
  · intro hfilt
    simp [nearestLoop, hseg, hterm, hfilt]
  · intro hfilt
    simp [nearestLoop, hseg, hterm, hfilt]
  · intro e use_segment
    exact ⟨rfl, rfl, rfl, rfl, rfl, rfl⟩

/-- Witness for C7: a concrete popped segment candidate with a filter that
keeps only the forward direction. -/
theorem filter_semantics_witness :
    (popMinAux ⟨5, ⟨0, true⟩, 0, ⟨1, 1⟩⟩ []).1.is_segment = true ∧
    (fun (_ : Nat) (_ : CandidateSegment) => false)
      ([] : List (Nat × EdgeDataT)).length
      (segmentCandidate wTree (popMinAux ⟨5, ⟨0, true⟩, 0, ⟨1, 1⟩⟩ []).1) = false ∧
    (((fun (_ : CandidateSegment) => (true, false))
        (segmentCandidate wTree (popMinAux ⟨5, ⟨0, true⟩, 0, ⟨1, 1⟩⟩ []).1)).1 = false ∧
     ((fun (_ : CandidateSegment) => (true, false))
        (segmentCandidate wTree (popMinAux ⟨5, ⟨0, true⟩, 0, ⟨1, 1⟩⟩ []).1)).2 = false →
      nearestLoop wTree (fun z => z) (fun _ => (true, false)) (fun _ _ => false)
        ⟨1, 1⟩ (3 + 1) [⟨5, ⟨0, true⟩, 0, ⟨1, 1⟩⟩] [] =
        nearestLoop wTree (fun z => z) (fun _ => (true, false)) (fun _ _ => false)
          ⟨1, 1⟩ 3 (popMinAux ⟨5, ⟨0, true⟩, 0, ⟨1, 1⟩⟩ []).2 []) ∧
    (¬(((fun (_ : CandidateSegment) => (true, false))
        (segmentCandidate wTree (popMinAux ⟨5, ⟨0, true⟩, 0, ⟨1, 1⟩⟩ []).1)).1 = false ∧
       ((fun (_ : CandidateSegment) => (true, false))
        (segmentCandidate wTree (popMinAux ⟨5, ⟨0, true⟩, 0, ⟨1, 1⟩⟩ []).1)).2 = false) →
      nearestLoop wTree (fun z => z) (fun _ => (true, false)) (fun _ _ => false)
        ⟨1, 1⟩ (3 + 1) [⟨5, ⟨0, true⟩, 0, ⟨1, 1⟩⟩] [] =
        nearestLoop wTree (fun z => z) (fun _ => (true, false)) (fun _ _ => false)
          ⟨1, 1⟩ 3 (popMinAux ⟨5, ⟨0, true⟩, 0, ⟨1, 1⟩⟩ []).2
          ([] ++ [((popMinAux ⟨5, ⟨0, true⟩, 0, ⟨1, 1⟩⟩ []).1.squared_min_dist,
            maskEdge (segmentEdge wTree (popMinAux ⟨5, ⟨0, true⟩, 0, ⟨1, 1⟩⟩ []).1)
              ((fun (_ : CandidateSegment) => (true, false))
                (segmentCandidate wTree (popMinAux ⟨5, ⟨0, true⟩, 0, ⟨1, 1⟩⟩ []).1)))])) :=
  ⟨by decide, rfl,
   (filter_semantics wTree (fun z => z) (fun _ => (true, false)) (fun _ _ => false)
     ⟨1, 1⟩ 3 ⟨5, ⟨0, true⟩, 0, ⟨1, 1⟩⟩ [] [] (by decide) rfl).1,
   (filter_semantics wTree (fun z => z) (fun _ => (true, false)) (fun _ _ => false)
     ⟨1, 1⟩ 3 ⟨5, ⟨0, true⟩, 0, ⟨1, 1⟩⟩ [] [] (by decide) rfl).2.1⟩

/-- Claim C8 counterexample: a leaf file of 4097 bytes with a 4096-byte page
is not an exact multiple, yet the open succeeds and reports one leaf — the
loader never checks divisibility, so the claim that opening fails on such
sizes is false at this input. -/
theorem mapLeafNodes_counterexample :
    4097 % 4096 ≠ 0 ∧ MapLeafNodesFile 4096 (some 4097) = some 1 := by decide

/-- Claim C8 amended: opening fails exactly when the mmap itself fails; a
mapped leaf file of any size is accepted, the number of leaves is the integer
quotient of the size by `sizeof(LeafNode)`, and the trailing
`size mod sizeof(LeafNode)` bytes are silently ignored. -/
theorem mapLeafNodes_amended (leafPageSize size : Nat) (h : 0 < leafPageSize) :
    MapLeafNodesFile leafPageSize (some size) = some (size / leafPageSize) ∧
    MapLeafNodesFile leafPageSize none = none ∧
    (size / leafPageSize) * leafPageSize ≤ size ∧
    size < (size / leafPageSize + 1) * leafPageSize := by
  refine ⟨rfl, rfl, Nat.div_mul_le_self _ _, ?_⟩
  have h1 := Nat.div_add_mod size leafPageSize
  have h2 := Nat.mod_lt size h
  rw [Nat.add_mul, one_mul]
  nlinarith [h1, h2]

/-- Witness for the amended C8 at a concrete non-multiple size. -/
theorem mapLeafNodes_amended_witness :
    0 < 4096 ∧
    (MapLeafNodesFile 4096 (some 4097) = some (4097 / 4096) ∧
     MapLeafNodesFile 4096 none = none ∧
     (4097 / 4096) * 4096 ≤ 4097 ∧
     4097 < (4097 / 4096 + 1) * 4096) :=
  ⟨by decide, mapLeafNodes_amended 4096 4097 (by decide)⟩

/-- Claim C9: the sentinel discrimination of the priority queue is never
ambiguous — every tree-node entry carries the sentinel `2^32 - 1` in
`segment_index`, `LEAF_NODE_SIZE` is below the sentinel for every page size
that fits `u32`, and every entry pushed by `ExploreLeafNode` on a leaf whose
object count is bounded by such a `LEAF_NODE_SIZE` is classified as a segment
with `segment_index < object_count`. -/
theorem sentinel_discrimination :
    (∀ (d : Nat) (ti : TreeIndex), (mkNodeCandidate d ti).is_segment = false) ∧
    (∀ P E : Nat, P ≤ 4294967295 → LEAF_NODE_SIZE P E < SEGMENT_SENTINEL) ∧
    (∀ (t : StaticRTree) (latToY : Int → Int) (leaf_id : TreeIndex)
       (pf : Coordinate) (L : Nat),
      (t.m_leaves.getD leaf_id.index default).object_count ≤ L →
      L < SEGMENT_SENTINEL →
      ∀ c ∈ ExploreLeafNode t latToY leaf_id pf,
        c.is_segment = true ∧
        c.segment_index < (t.m_leaves.getD leaf_id.index default).object_count) := by
  refine ⟨?_, ?_, ?_⟩
  · intro d ti
    simp [mkNodeCandidate, QueryCandidate.is_segment]
  · intro P E hP
    have hdiv := Nat.div_le_self (P - 4 - 16) E
    unfold LEAF_NODE_SIZE SEGMENT_SENTINEL
    omega
  · intro t latToY leaf_id pf L hL hsent c hc
    simp only [ExploreLeafNode, List.mem_map, List.mem_range] at hc
    obtain ⟨i, hi, rfl⟩ := hc
    have hne : i ≠ SEGMENT_SENTINEL := Nat.ne_of_lt (lt_of_lt_of_le hi (le_trans hL (le_of_lt hsent)))
    exact ⟨by simp [QueryCandidate.is_segment, hne], hi⟩

/-- Witness for C9 at a concrete node entry, page size and leaf. -/
theorem sentinel_discrimination_witness :
    (mkNodeCandidate 7 ⟨3, false⟩).is_segment = false ∧
    (4096 ≤ 4294967295 ∧ LEAF_NODE_SIZE 4096 24 < SEGMENT_SENTINEL) ∧
    ((wTree.m_leaves.getD ((⟨0, true⟩ : TreeIndex)).index default).object_count ≤ 2 ∧
     2 < SEGMENT_SENTINEL ∧
     ∀ c ∈ ExploreLeafNode wTree (fun z => z) ⟨0, true⟩ ⟨1, 1⟩,
       c.is_segment = true ∧
       c.segment_index <
         (wTree.m_leaves.getD ((⟨0, true⟩ : TreeIndex)).index default).object_count) :=
  ⟨sentinel_discrimination.1 7 ⟨3, false⟩,
   ⟨by decide, sentinel_discrimination.2.1 4096 24 (by decide)⟩,
   ⟨by decide, by decide,
    sentinel_discrimination.2.2 wTree (fun z => z) ⟨0, true⟩ ⟨1, 1⟩ 2
      (by decide) (by decide)⟩⟩

/-!  Helper lemmas: the explicit-state query loops return the index state
untouched and compute the same results as the plain loops. -/

theorem nearestLoopSt_spec (t : StaticRTree) (latToY : Int → Int)
    (filter : CandidateSegment → Bool × Bool)
    (terminate : Nat → CandidateSegment → Bool) (pf : Coordinate) :
    ∀ fuel queue results,
      (nearestLoopSt t latToY filter terminate pf fuel queue results).1 = t ∧
      (nearestLoopSt t latToY filter terminate pf fuel queue results).2 =
        nearestLoop t latToY filter terminate pf fuel queue results := by
  intro fuel
  induction fuel with
  | zero => intro queue results; exact ⟨rfl, rfl⟩
  | succ fuel ih =>
    intro queue results
    match queue with
    | [] => exact ⟨rfl, rfl⟩
    | c :: cs =>
      by_cases hseg : (popMinAux c cs).1.is_segment = true
      · by_cases hterm :
          terminate results.length (segmentCandidate t (popMinAux c cs).1) = true
        · simp only [nearestLoopSt, nearestLoop, hseg, hterm, if_true]
          exact ⟨by trivial, by trivial⟩
        · by_cases hfilt : (filter (segmentCandidate t (popMinAux c cs).1)).1 = false ∧
            (filter (segmentCandidate t (popMinAux c cs).1)).2 = false
          · simp only [nearestLoopSt, nearestLoop, hseg, hterm, hfilt, if_true,
              if_false, Bool.false_eq_true]
            exact ih _ _
          · simp only [nearestLoopSt, nearestLoop, hseg, hterm, hfilt, if_true,
              if_false, Bool.false_eq_true]
            exact ih _ _
      · have hseg' : (popMinAux c cs).1.is_segment = false := eq_false_of_ne_true hseg
        by_cases hl : (popMinAux c cs).1.tree_index.is_leaf = true
        · simp only [nearestLoopSt, nearestLoop, hseg', hl, if_true, if_false,
            Bool.false_eq_true]
          exact ih _ _
        · have hl' : (popMinAux c cs).1.tree_index.is_leaf = false := eq_false_of_ne_true hl
          simp only [nearestLoopSt, nearestLoop, hseg', hl', if_true, if_false,
            Bool.false_eq_true]
          exact ih _ _

theorem searchInBoxLoopSt_spec (t : StaticRTree)
    (search_rectangle projected_rectangle : RectangleInt2D) :
    ∀ fuel queue results,
      (searchInBoxLoopSt t search_rectangle projected_rectangle fuel queue results).1 = t ∧
      (searchInBoxLoopSt t search_rectangle projected_rectangle fuel queue results).2 =
        searchInBoxLoop t search_rectangle projected_rectangle fuel queue results := by
  intro fuel
  induction fuel with
  | zero =>
    intro queue results
    match queue with
    | [] => exact ⟨rfl, rfl⟩
    | _ :: _ => exact ⟨rfl, rfl⟩
  | succ fuel ih =>
    intro queue results
    match queue with
    | [] => exact ⟨rfl, rfl⟩
    | ti :: rest =>
      by_cases hl : ti.is_leaf = true
      · simp only [searchInBoxLoopSt, searchInBoxLoop, hl, if_true]
        exact ih _ _
      · have hl' : ti.is_leaf = false := eq_false_of_ne_true hl
        simp only [searchInBoxLoopSt, searchInBoxLoop, hl', if_false, Bool.false_eq_true]
        exact ih _ _

/-- Claim C10: the queries never modify the index state.  In the explicit
state-threaded rendering of both query loops — where every memory access of
the source is routed through the index value and the enabled-flag masking acts
on the local copy of the edge placed into the result vector — the final index
state equals the initial one for every input, and the results agree with the
plain loops. -/
theorem queries_leave_index_unchanged :
    (∀ (t : StaticRTree) (latToY : Int → Int)
       (filter : CandidateSegment → Bool × Bool)
       (terminate : Nat → CandidateSegment → Bool) (pf : Coordinate)
       (fuel : Nat) (queue : List QueryCandidate) (results : List (Nat × EdgeDataT)),
      (nearestLoopSt t latToY filter terminate pf fuel queue results).1 = t ∧
      (nearestLoopSt t latToY filter terminate pf fuel queue results).2 =
        nearestLoop t latToY filter terminate pf fuel queue results) ∧
    (∀ (t : StaticRTree) (search_rectangle projected_rectangle : RectangleInt2D)
       (fuel : Nat) (queue : List TreeIndex) (results : List EdgeDataT),
      (searchInBoxLoopSt t search_rectangle projected_rectangle fuel queue results).1 = t ∧
      (searchInBoxLoopSt t search_rectangle projected_rectangle fuel queue results).2 =
        searchInBoxLoop t search_rectangle projected_rectangle fuel queue results) :=
  ⟨fun t latToY filter terminate pf fuel queue results =>
     nearestLoopSt_spec t latToY filter terminate pf fuel queue results,
   fun t sr pr fuel queue results => searchInBoxLoopSt_spec t sr pr fuel queue results⟩

/-- Claim C4, evaluated at a failing input: with branching factor 2 (a legal
template instantiation) the OMT packer stores none of the two input edges —
both emitted leaves have `object_count = 0` (the `object_count = N - 1`
undercount with the mixed inclusive/exclusive range bounds), so the sum of the
object counts is 0, not the input size, and no edge is stored in any leaf. -/
theorem omt_coverage_fails :
    (diagEdges 2).length = 2 ∧
    storedEdges (PackWithOMT (diagCoords 4) (fun z => z) 2 (diagEdges 2) 20) = [] ∧
    ((PackWithOMT (diagCoords 4) (fun z => z) 2 (diagEdges 2) 20).leaf_file.map
      (fun lf => lf.object_count)).sum = 0 ∧
    (PackWithOMT (diagCoords 4) (fun z => z) 2 (diagEdges 2) 20).leaf_file.length = 2 := by
  decide

set_option maxRecDepth 40000

/-- Claim C5, evaluated at a failing input: with branching factor 3 and 9
edges (pairwise distinct centroid coordinates, identity latitude map), the
OMT build attaches four children to each of the two non-root tree nodes.  The
model is faithful to the source statement by statement up to the first attach
that exceeds the branching factor, and the recorded counts show that attach
happens: in the source the fourth attach writes `children[3]`, one past the
fixed `TreeIndex children[BRANCHING_FACTOR]` array (the guarding
`BOOST_ASSERT` checks the non-strict `child_count <= BRANCHING_FACTOR` before
the write and misses it; the internal-attach assert states the intended
strict bound, and the spec calls `child_count` exceeding the branching factor
a broken internal invariant).  The build therefore corrupts the node array at
this legal input, so no tree satisfying the claimed node-mbr invariant is
produced. -/
theorem omt_children_overflow :
    ((PackWithOMT (diagCoords 18) (fun z => z) 3 (diagEdges 9) 100).search_tree.map
      (fun n => n.child_count)) = [2, 4, 4] ∧
    ((PackWithOMT (diagCoords 18) (fun z => z) 3 (diagEdges 9) 100).search_tree.all
      (fun n => decide (n.child_count ≤ 3))) = false := by
  decide

end OSRMRTree


